import Mathlib

/-!
Shallow embedding of the risk-decision engine of the analyzed repository:
the EV engine (`apps/analyzer/strategy/ev.py`), the bankroll manager
(`apps/analyzer/strategy/bankroll.py`), the regime detector
(`apps/analyzer/regime.py`) and the threshold tuner's Pareto extraction
(`apps/analyzer/tune_thresholds.py`).

Modelling conventions:
- Python floats are modelled as exact rationals (`ℚ`); the numeric claims
  concern the real-line semantics of the formulas, not IEEE rounding.
- `np.clip(p, lo, hi)` is `min (max p lo) hi`.
- Python's stable `list.sort(reverse=True)` with a numeric key is modelled by
  `List.insertionSort` with the total preorder "my key is at least yours",
  which is stable in the same sense (earlier elements stay ahead of later
  equal-key elements).
- File persistence, timestamps and rationale strings are presentational and
  carry no decision logic; they are omitted from the state.
-/

/-! ### EV engine: configuration and formulas (`strategy/ev.py`) -/

/-- Candidate actions of the EV engine
(`Literal['HOLD','TRIM','CASH','ARM_SIDEBET']`; named `EVAction` here because
`Action` is taken by Mathlib). -/
inductive EVAction where
  | HOLD
  | TRIM
  | CASH
  | ARM_SIDEBET
deriving DecidableEq, Repr

/-- The `EVConfig` dataclass of `strategy/ev.py`. -/
structure EVConfig where
  cash_slippage_pct : ℚ
  sidebet_payout : ℚ
  sidebet_fee_pct : ℚ
  cash_hold_dt_s : ℚ
  future_gain_multiplier_if_survive : ℚ
  safety_floor_x : ℚ
  min_probability : ℚ
  max_probability : ℚ
  default_stake_pct : ℚ
  max_stake_pct : ℚ
  ev_threshold : ℚ
deriving DecidableEq, Repr

/-- The default values of the `EVConfig` dataclass. -/
def defaultEVConfig : EVConfig where
  cash_slippage_pct := 1/500
  sidebet_payout := 5
  sidebet_fee_pct := 1/50
  cash_hold_dt_s := 2
  future_gain_multiplier_if_survive := 23/20
  safety_floor_x := 51/50
  min_probability := 1/1000000
  max_probability := 999999/1000000
  default_stake_pct := 1/100
  max_stake_pct := 1/20
  ev_threshold := 1/1000

/-- Embeds `EVEngine._clamp_probability`: `np.clip(p, min_probability, max_probability)`. -/
def clamp_probability (cfg : EVConfig) (p : ℚ) : ℚ :=
  min (max p cfg.min_probability) cfg.max_probability

/-- Embeds `EVEngine.ev_cash_hold`: clamp the probability, then
`p_survive * (x * future_gain) + p_rug * safety_floor_x`. -/
def ev_cash_hold (cfg : EVConfig) (p_rug_5s x : ℚ) : ℚ :=
  let p_rug := clamp_probability cfg p_rug_5s
  let p_survive := 1 - p_rug
  let future_x := x * cfg.future_gain_multiplier_if_survive
  let crash_x := cfg.safety_floor_x
  p_survive * future_x + p_rug * crash_x

/-- Embeds `EVEngine.ev_cash_now`: `x * (1 - cash_slippage_pct)`. -/
def ev_cash_now (cfg : EVConfig) (x : ℚ) : ℚ :=
  x * (1 - cfg.cash_slippage_pct)

/-- Embeds `EVEngine.ev_sidebet`: clamp the probability, then
`p_rug * (stake * (payout - 1) * (1 - fee)) + (1 - p_rug) * (-stake)`. -/
def ev_sidebet (cfg : EVConfig) (p_rug_10s stake : ℚ) : ℚ :=
  let p_rug := clamp_probability cfg p_rug_10s
  let win_amount := stake * (cfg.sidebet_payout - 1) * (1 - cfg.sidebet_fee_pct)
  let loss_amount := -stake
  p_rug * win_amount + (1 - p_rug) * loss_amount

/-- The candidate list built by `EVEngine.best_action` in insertion order:
HOLD with its EV delta over cashing, CASH at the zero baseline, and
ARM_SIDEBET only when its EV exceeds `ev_threshold`.  The probabilities are
clamped once up front as in the source (the EV helpers clamp again,
idempotently). -/
def candidateActions (cfg : EVConfig) (p5 p10 x bankroll : ℚ) : List (EVAction × ℚ) :=
  let p5c := clamp_probability cfg p5
  let p10c := clamp_probability cfg p10
  let ev_hold := ev_cash_hold cfg p5c x
  let ev_cash := ev_cash_now cfg x
  let ev_sidebet_vs_cash := ev_sidebet cfg p10c (bankroll * cfg.default_stake_pct)
  let ev_hold_vs_cash := ev_hold - ev_cash
  [(EVAction.HOLD, ev_hold_vs_cash), (EVAction.CASH, 0)] ++
    (if cfg.ev_threshold < ev_sidebet_vs_cash then [(EVAction.ARM_SIDEBET, ev_sidebet_vs_cash)]
     else [])

/-- The order used by `actions.sort(key=lambda x: x[1], reverse=True)`:
`a` comes no later than `b` when `a`'s EV is at least `b`'s. -/
def evGE (a b : EVAction × ℚ) : Prop := b.2 ≤ a.2

instance : DecidableRel evGE := fun a b => inferInstanceAs (Decidable (b.2 ≤ a.2))

/-- The candidate list of `best_action` after the stable descending sort. -/
def rankedActions (cfg : EVConfig) (p5 p10 x bankroll : ℚ) : List (EVAction × ℚ) :=
  List.insertionSort evGE (candidateActions cfg p5 p10 x bankroll)

/-- The `EVResult` dataclass of `strategy/ev.py`: the chosen action, the `evs` mapping in
insertion order, and the confidence score (the rationale string is omitted). -/
structure EVResult where
  action : EVAction
  evs : List (EVAction × ℚ)
  confidence : ℚ
deriving DecidableEq, Repr

/-- Embeds `EVEngine.best_action`: rank the candidates by EV descending (stable),
pick the top action, and set
`confidence = min(0.95, max(0.05, 0.5 + (best - second_best) * 10))`,
where the second-best EV defaults to `0` for a one-element list. -/
def best_action (cfg : EVConfig) (p5 p10 x bankroll : ℚ) : EVResult :=
  let actions := rankedActions cfg p5 p10 x bankroll
  let best := actions.getD 0 (EVAction.CASH, 0)
  let second_best_ev := if 1 < actions.length then (actions.getD 1 (EVAction.CASH, 0)).2 else 0
  let ev_delta := best.2 - second_best_ev
  { action := best.1
    evs := candidateActions cfg p5 p10 x bankroll
    confidence := min (95/100) (max (5/100) (1/2 + ev_delta * 10)) }

/-! ### Bankroll manager (`strategy/bankroll.py`) -/

/-- The configuration of a `BankrollManager`; `bet_size_cap` is stored already
converted to a decimal fraction as in `__init__` (`bet_size_cap / 100.0`). -/
structure BankrollManager where
  initial_balance : ℚ
  kelly_fraction : ℚ
  max_daily_loss_pct : ℚ
  bet_size_cap : ℚ
deriving DecidableEq, Repr

/-- Embeds `BankrollManager.__init__` / `create_bankroll_manager`: converts the
`bet_size_cap` percentage to a decimal. -/
def create_bankroll_manager (initial_balance kelly_fraction max_daily_loss_pct
    bet_size_cap : ℚ) : BankrollManager where
  initial_balance := initial_balance
  kelly_fraction := kelly_fraction
  max_daily_loss_pct := max_daily_loss_pct
  bet_size_cap := bet_size_cap / 100

/-- The mutable bankroll state dictionary (dates and timestamps omitted). -/
structure BankrollState where
  balance : ℚ
  daily_loss : ℚ
  total_bets : ℕ
  wins : ℕ
  losses : ℕ
  total_profit : ℚ
  max_balance : ℚ
  min_balance : ℚ
  initial_balance : ℚ
deriving DecidableEq, Repr

/-- The freshly created bankroll state of `BankrollManager._load_state`. -/
def init_state (initial_balance : ℚ) : BankrollState where
  balance := initial_balance
  daily_loss := 0
  total_bets := 0
  wins := 0
  losses := 0
  total_profit := 0
  max_balance := initial_balance
  min_balance := initial_balance
  initial_balance := initial_balance

/-- The state transition of `BankrollManager.update_balance` (the function
additionally returns a read-only summary dictionary; only the mutation of the
state is modelled).  `bet_amount` is accepted but, as in the source, does not
enter the state update. -/
def update_balance (s : BankrollState) (bet_amount result : ℚ) : BankrollState :=
  let new_balance := s.balance + result
  { balance := new_balance
    daily_loss := if 0 < result then s.daily_loss else s.daily_loss + |result|
    total_bets := s.total_bets + 1
    wins := if 0 < result then s.wins + 1 else s.wins
    losses := if 0 < result then s.losses else s.losses + 1
    total_profit := s.total_profit + result
    max_balance := max s.max_balance new_balance
    min_balance := min s.min_balance new_balance
    initial_balance := s.initial_balance }

/-- Embeds `BankrollManager.size_bet`: 0 on degenerate inputs, otherwise the Kelly
fraction `(b*p - q)/b` scaled by `kelly_fraction`, capped by `bet_size_cap`
and floored at 0. -/
def size_bet (m : BankrollManager) (edge odds : ℚ) : ℚ :=
  if edge ≤ 0 ∨ 1 ≤ edge ∨ odds ≤ 1 then 0
  else
    let b := odds - 1
    let p := edge
    let q := 1 - edge
    let kelly_fraction_raw := (b * p - q) / b
    let kelly_fraction_actual := kelly_fraction_raw * m.kelly_fraction
    let bet_size := min kelly_fraction_actual m.bet_size_cap
    max 0 bet_size

/-- Embeds `BankrollManager.apply_daily_loss_cap`: `False` when `balance <= 0`,
otherwise `(daily_loss / balance) * 100 < max_daily_loss_pct`. -/
def apply_daily_loss_cap (m : BankrollManager) (s : BankrollState) : Bool :=
  if s.balance ≤ 0 then false
  else decide (s.daily_loss / s.balance * 100 < m.max_daily_loss_pct)

/-- The invariant of claim C1 on a bankroll state. -/
def BankrollInv (s : BankrollState) : Prop :=
  s.wins + s.losses = s.total_bets ∧ s.min_balance ≤ s.balance ∧ s.balance ≤ s.max_balance

instance : DecidablePred BankrollInv := fun s => by
  unfold BankrollInv
  infer_instance

/-! ### Regime detector (`regime.py`) -/

/-- The regime labels of `RegimeDetector`. -/
inductive Regime where
  | low_vol
  | normal
  | high_vol
deriving DecidableEq, Repr

/-- The `RegimeConfig` dataclass of `regime.py`. -/
structure RegimeConfig where
  lookback_rounds : ℕ
  vol_low_threshold : ℚ
  vol_high_threshold : ℚ
  slope_low_threshold : ℚ
  slope_high_threshold : ℚ
  min_rounds_per_regime : ℕ
deriving DecidableEq, Repr

/-- The default values of the `RegimeConfig` dataclass. -/
def defaultRegimeConfig : RegimeConfig where
  lookback_rounds := 200
  vol_low_threshold := 1/10
  vol_high_threshold := 3/10
  slope_low_threshold := 1/20
  slope_high_threshold := 3/20
  min_rounds_per_regime := 50

/-- One row of the dataframe handed to `detect_regime`: only the
`volatility` and `slope_magnitude` columns are read. -/
structure RegimeRow where
  volatility : ℚ
  slope_magnitude : ℚ
deriving DecidableEq, Repr

/-- The mean of a list of rationals (`pandas.Series.mean`).  On the empty
list this is `0/0 = 0` whereas pandas yields NaN; the claims only invoke it
on nonempty windows (`min_rounds_per_regime ≥ 1`). -/
def meanQ (l : List ℚ) : ℚ := l.sum / l.length

/-- The windowed mean of the `volatility` column. -/
def avg_vol (data : List RegimeRow) : ℚ := meanQ (data.map RegimeRow.volatility)

/-- The windowed mean of the `slope_magnitude` column. -/
def avg_slope (data : List RegimeRow) : ℚ := meanQ (data.map RegimeRow.slope_magnitude)

/-- Embeds `RegimeDetector.detect_regime`: NORMAL below the minimum row count, then
LOW_VOL when both means are below their low thresholds, HIGH_VOL when either
mean exceeds its high threshold, NORMAL otherwise. -/
def detect_regime (cfg : RegimeConfig) (data : List RegimeRow) : Regime :=
  if data.length < cfg.min_rounds_per_regime then Regime.normal
  else if avg_vol data < cfg.vol_low_threshold ∧ avg_slope data < cfg.slope_low_threshold then
    Regime.low_vol
  else if cfg.vol_high_threshold < avg_vol data ∨ cfg.slope_high_threshold < avg_slope data then
    Regime.high_vol
  else Regime.normal

/-! ### Threshold tuner: Pareto frontier (`tune_thresholds.py`) -/

/-- One entry of the result list built by `simulate_with_thresholds`; the
field `sharpe` models the dictionary key for the Sharpe ratio. -/
structure SweepResult where
  cash_threshold : ℚ
  sidebet_threshold : ℚ
  total_return : ℚ
  sharpe : ℚ
  max_drawdown : ℚ
  prob_ruin : ℚ
  trades_count : ℕ
  final_bankroll : ℚ
deriving DecidableEq, Repr

/-- The dominance test inside `find_pareto_optimal`: `o` dominates `r` when it
is at least as good on all three objectives (return ≥, Sharpe ≥, drawdown ≤)
and strictly better on at least one. -/
def dominates (o r : SweepResult) : Prop :=
  r.total_return ≤ o.total_return ∧ r.sharpe ≤ o.sharpe ∧
    o.max_drawdown ≤ r.max_drawdown ∧
    (r.total_return < o.total_return ∨ r.sharpe < o.sharpe ∨
      o.max_drawdown < r.max_drawdown)

instance : DecidableRel dominates := fun o r => by
  unfold dominates
  infer_instance

/-- The order of `pareto.sort(key=lambda x: x['sharpe_ratio'], reverse=True)`:
`a` comes no later than `b` when `a`'s Sharpe is at least `b`'s. -/
def sharpeGE (a b : SweepResult) : Prop := b.sharpe ≤ a.sharpe

instance : DecidableRel sharpeGE := fun a b =>
  inferInstanceAs (Decidable (b.sharpe ≤ a.sharpe))

instance : IsTotal SweepResult sharpeGE := ⟨fun a b => le_total b.sharpe a.sharpe⟩

instance : IsTrans SweepResult sharpeGE :=
  ⟨fun _ _ _ h1 h2 => le_trans h2 h1⟩

/-- Embeds `ThresholdTuner.find_pareto_optimal`: keep each result not dominated by
any other result, then sort by Sharpe descending. -/
def find_pareto_optimal (results : List SweepResult) : List SweepResult :=
  if results.isEmpty then []
  else List.insertionSort sharpeGE
    (results.filter fun r => ! results.any fun o => decide (dominates o r))

/-! ### Helper lemmas -/

/-- A single `update_balance` call preserves the bankroll invariant. -/
theorem update_balance_preserves (s : BankrollState) (b r : ℚ)
    (h : BankrollInv s) : BankrollInv (update_balance s b r) := by
  obtain ⟨hc, -, -⟩ := h
  refine ⟨?_, min_le_right _ _, le_max_right _ _⟩
  simp only [update_balance]
  by_cases hr : 0 < r <;> simp [hr] <;> omega

/-- The default of `getD` at index 0 is irrelevant on a nonempty list. -/
theorem getD_zero_mem {α : Type} (l : List α) (d : α) (h : l ≠ []) :
    l.getD 0 d ∈ l := by
  cases l with
  | nil => exact absurd rfl h
  | cons a t => simp [List.getD]

/-- The dominance relation of `find_pareto_optimal` is irreflexive. -/
theorem dominates_irrefl (r : SweepResult) : ¬ dominates r r := by
  rintro ⟨-, -, -, h | h | h⟩ <;> exact lt_irrefl _ h

/-- The dominance relation of `find_pareto_optimal` is transitive. -/
theorem dominates_trans {a b c : SweepResult} (h1 : dominates a b) (h2 : dominates b c) :
    dominates a c := by
  obtain ⟨t1, s1, d1, st1⟩ := h1
  obtain ⟨t2, s2, d2, st2⟩ := h2
  refine ⟨le_trans t2 t1, le_trans s2 s1, le_trans d1 d2, ?_⟩
  rcases st1 with h | h | h
  · exact Or.inl (lt_of_le_of_lt t2 h)
  · exact Or.inr (Or.inl (lt_of_le_of_lt s2 h))
  · exact Or.inr (Or.inr (lt_of_lt_of_le h d2))

/-- A finite nonempty set carries an element maximal for the (irreflexive,
transitive) dominance relation. -/
theorem exists_not_dominated : ∀ (l : List SweepResult), l ≠ [] →
    ∃ r ∈ l, ∀ o ∈ l, ¬ dominates o r := by
  intro l
  induction l with
  | nil => intro h; exact absurd rfl h
  | cons a t ih =>
    intro _
    by_cases ht : t = []
    · subst ht
      refine ⟨a, List.mem_singleton_self a, ?_⟩
      intro o ho
      rw [List.mem_singleton] at ho
      subst ho
      exact dominates_irrefl o
    · obtain ⟨b, hb, hmax⟩ := ih ht
      by_cases hd : dominates a b
      · refine ⟨a, List.mem_cons_self a t, ?_⟩
        intro o ho hoa
        rcases List.mem_cons.mp ho with rfl | hot
        · exact dominates_irrefl o hoa
        · exact hmax o hot (dominates_trans hoa hd)
      · refine ⟨b, List.mem_cons_of_mem a hb, ?_⟩
        intro o ho hob
        rcases List.mem_cons.mp ho with rfl | hot
        · exact hd hob
        · exact hmax o hot hob

/-! ### Claim theorems -/

/-- C1: for every freshly created bankroll state and every finite sequence of
`update_balance(bet_amount, result)` calls with arbitrary rational results,
after the calls `wins + losses = total_bets` and
`min_balance ≤ balance ≤ max_balance` hold. -/
theorem bankroll_update_invariant (initial_balance : ℚ) (calls : List (ℚ × ℚ)) :
    BankrollInv (calls.foldl (fun s c => update_balance s c.1 c.2)
      (init_state initial_balance)) := by
  have hgen : ∀ (l : List (ℚ × ℚ)) (s : BankrollState), BankrollInv s →
      BankrollInv (l.foldl (fun s c => update_balance s c.1 c.2) s) := by
    intro l
    induction l with
    | nil => exact fun s hs => hs
    | cons c t ih => exact fun s hs => ih _ (update_balance_preserves s c.1 c.2 hs)
  exact hgen calls _ ⟨rfl, le_refl _, le_refl _⟩

/-- C9: clamping maps every rational probability into
`[min_probability, max_probability]` (the bounds being ordered, as in the
default configuration), and clamping is idempotent. -/
theorem clamp_probability_spec (cfg : EVConfig) (p : ℚ)
    (h : cfg.min_probability ≤ cfg.max_probability) :
    cfg.min_probability ≤ clamp_probability cfg p ∧
    clamp_probability cfg p ≤ cfg.max_probability ∧
    clamp_probability cfg (clamp_probability cfg p) = clamp_probability cfg p := by
  have h1 : cfg.min_probability ≤ clamp_probability cfg p :=
    le_min (le_max_right _ _) h
  have h2 : clamp_probability cfg p ≤ cfg.max_probability := min_le_right _ _
  refine ⟨h1, h2, ?_⟩
  show min (max (clamp_probability cfg p) cfg.min_probability) cfg.max_probability =
    clamp_probability cfg p
  rw [max_eq_left h1, min_eq_left h2]

/-- C9 witness: the bounds and idempotence at the default configuration and
`p = -5`. -/
theorem clamp_probability_spec_witness :
    defaultEVConfig.min_probability ≤ defaultEVConfig.max_probability ∧
    (defaultEVConfig.min_probability ≤ clamp_probability defaultEVConfig (-5) ∧
      clamp_probability defaultEVConfig (-5) ≤ defaultEVConfig.max_probability ∧
      clamp_probability defaultEVConfig (clamp_probability defaultEVConfig (-5)) =
        clamp_probability defaultEVConfig (-5)) :=
  ⟨by norm_num [defaultEVConfig],
    clamp_probability_spec defaultEVConfig (-5) (by norm_num [defaultEVConfig])⟩

/-- C2 counterexample: with the default configuration, `ev_cash_hold(0, 1)`
differs from `1 * future_gain_multiplier_if_survive`, because the probability
is clamped up to `min_probability = 1e-6` and the safety floor contributes. -/
theorem ev_cash_hold_zero_counterexample :
    ev_cash_hold defaultEVConfig 0 1 ≠
      1 * defaultEVConfig.future_gain_multiplier_if_survive := by
  have hc : clamp_probability defaultEVConfig 0 = 1/1000000 := by
    show min (max (0:ℚ) (1/1000000)) (999999/1000000) = 1/1000000
    norm_num [min_def, max_def]
  simp only [ev_cash_hold, hc]
  norm_num [defaultEVConfig]

/-- C2 amended: with `0 ≤ min_probability ≤ max_probability` (as in the
default configuration), `ev_cash_hold(0, x)` equals
`(1 - min_probability) * x * future_gain_multiplier + min_probability * safety_floor_x`;
the safety floor contributes with weight `min_probability`, so the claimed
exact equality with the pure survival payoff does not hold. -/
theorem ev_cash_hold_zero_amended (cfg : EVConfig) (x : ℚ)
    (h0 : 0 ≤ cfg.min_probability) (h1 : cfg.min_probability ≤ cfg.max_probability) :
    ev_cash_hold cfg 0 x =
      (1 - cfg.min_probability) * (x * cfg.future_gain_multiplier_if_survive) +
        cfg.min_probability * cfg.safety_floor_x := by
  simp only [ev_cash_hold, clamp_probability]
  rw [max_eq_right h0, min_eq_left h1]

/-- C2 witness: the amended equality evaluated at the default configuration
and `x = 1`. -/
theorem ev_cash_hold_zero_amended_witness :
    ((0:ℚ) ≤ defaultEVConfig.min_probability ∧
      defaultEVConfig.min_probability ≤ defaultEVConfig.max_probability) ∧
    ev_cash_hold defaultEVConfig 0 1 =
      (1 - defaultEVConfig.min_probability) *
          (1 * defaultEVConfig.future_gain_multiplier_if_survive) +
        defaultEVConfig.min_probability * defaultEVConfig.safety_floor_x :=
  ⟨⟨by norm_num [defaultEVConfig], by norm_num [defaultEVConfig]⟩,
    ev_cash_hold_zero_amended defaultEVConfig 1 (by norm_num [defaultEVConfig])
      (by norm_num [defaultEVConfig])⟩

/-- C4: `size_bet` returns 0 whenever `edge ≤ 0`, `edge ≥ 1` or `odds ≤ 1`,
and on every input returns a value in `[0, bet_size_cap]` (the cap being
nonnegative, as produced by the constructor from a nonnegative percentage);
the definition is total, so no error is ever raised. -/
theorem size_bet_spec (m : BankrollManager) (edge odds : ℚ)
    (hcap : 0 ≤ m.bet_size_cap) :
    ((edge ≤ 0 ∨ 1 ≤ edge ∨ odds ≤ 1) → size_bet m edge odds = 0) ∧
    0 ≤ size_bet m edge odds ∧ size_bet m edge odds ≤ m.bet_size_cap := by
  unfold size_bet
  by_cases hd : edge ≤ 0 ∨ 1 ≤ edge ∨ odds ≤ 1
  · rw [if_pos hd]
    exact ⟨fun _ => rfl, le_refl 0, hcap⟩
  · rw [if_neg hd]
    exact ⟨fun h => absurd h hd, le_max_left _ _, max_le hcap (min_le_right _ _)⟩

/-- C4 witness: the Kelly sizing at the default manager
(`kelly_fraction = 0.5`, cap 5% of balance) with `edge = 0.6`, `odds = 2`. -/
theorem size_bet_spec_witness :
    (0:ℚ) ≤ (create_bankroll_manager 1000 (1/2) 20 5).bet_size_cap ∧
    ((((3:ℚ)/5 ≤ 0 ∨ (1:ℚ) ≤ 3/5 ∨ (2:ℚ) ≤ 1) →
        size_bet (create_bankroll_manager 1000 (1/2) 20 5) (3/5) 2 = 0) ∧
      0 ≤ size_bet (create_bankroll_manager 1000 (1/2) 20 5) (3/5) 2 ∧
      size_bet (create_bankroll_manager 1000 (1/2) 20 5) (3/5) 2 ≤
        (create_bankroll_manager 1000 (1/2) 20 5).bet_size_cap) :=
  ⟨by norm_num [create_bankroll_manager],
    size_bet_spec (create_bankroll_manager 1000 (1/2) 20 5) (3/5) 2
      (by norm_num [create_bankroll_manager])⟩

/-- C5 counterexample: at `balance = 1`, `daily_loss = 1`,
`max_daily_loss_pct = 20`, the code returns `False` (it compares
`(daily_loss / balance) * 100 = 100` against 20) while the claimed condition
`daily_loss / balance < max_daily_loss_pct` (that is `1 < 20`) holds, so the
claimed equivalence is false. -/
theorem apply_daily_loss_cap_counterexample :
    ¬ (apply_daily_loss_cap (create_bankroll_manager 1000 (1/2) 20 5)
        { balance := 1, daily_loss := 1, total_bets := 0, wins := 0, losses := 0,
          total_profit := 0, max_balance := 1, min_balance := 1,
          initial_balance := 1000 } = true ↔
      (0 < (1:ℚ) ∧ (1:ℚ) / 1 <
        (create_bankroll_manager 1000 (1/2) 20 5).max_daily_loss_pct)) := by
  have hL : apply_daily_loss_cap (create_bankroll_manager 1000 (1/2) 20 5)
      { balance := 1, daily_loss := 1, total_bets := 0, wins := 0, losses := 0,
        total_profit := 0, max_balance := 1, min_balance := 1,
        initial_balance := 1000 } = false := by
    show (if (1:ℚ) ≤ 0 then false else decide ((1:ℚ) / 1 * 100 < 20)) = false
    rw [if_neg (by norm_num)]
    simp only [decide_eq_false_iff_not]
    norm_num
  intro h
  rw [hL] at h
  exact absurd (h.mpr ⟨by norm_num, by norm_num [create_bankroll_manager]⟩) (by simp)

/-- C5 amended: `apply_daily_loss_cap` is `True` iff `balance > 0` and
`daily_loss / balance < max_daily_loss_pct / 100` (the configured field is a
percentage, and the code compares `(daily_loss / balance) * 100` against it);
in particular it returns `False` for every state with `balance ≤ 0` and the
division by a zero balance is short-circuited. -/
theorem apply_daily_loss_cap_amended (m : BankrollManager) (s : BankrollState) :
    (apply_daily_loss_cap m s = true ↔
      0 < s.balance ∧ s.daily_loss / s.balance < m.max_daily_loss_pct / 100) ∧
    (s.balance ≤ 0 → apply_daily_loss_cap m s = false) := by
  unfold apply_daily_loss_cap
  by_cases hb : s.balance ≤ 0
  · rw [if_pos hb]
    refine ⟨?_, fun _ => rfl⟩
    constructor
    · intro h
      exact absurd h (by simp)
    · rintro ⟨h1, -⟩
      exact absurd h1 (not_lt.mpr hb)
  · rw [if_neg hb]
    have h100 : (0:ℚ) < 100 := by norm_num
    refine ⟨?_, fun h => absurd h hb⟩
    rw [decide_eq_true_eq]
    constructor
    · intro h
      exact ⟨not_le.mp hb, (lt_div_iff₀ h100).mpr h⟩
    · rintro ⟨-, h⟩
      exact (lt_div_iff₀ h100).mp h

/-- C5 witness: the amended theorem applied at a zero-balance state,
discharging the `balance ≤ 0` hypothesis. -/
theorem apply_daily_loss_cap_amended_witness :
    apply_daily_loss_cap (create_bankroll_manager 1000 (1/2) 20 5) (init_state 0) = false :=
  (apply_daily_loss_cap_amended (create_bankroll_manager 1000 (1/2) 20 5)
    (init_state 0)).2 (by norm_num [init_state])

/-- C6: `detect_regime` returns NORMAL for every window shorter than
`min_rounds_per_regime`; on a window of at least that many rows (with the
low thresholds at most the high thresholds and a positive minimum row count,
as in the default configuration) it returns LOW_VOL iff both means are below
their low thresholds, HIGH_VOL whenever either mean exceeds its high
threshold, and NORMAL otherwise. -/
theorem detect_regime_spec (cfg : RegimeConfig) (data : List RegimeRow)
    (hmin : 1 ≤ cfg.min_rounds_per_regime)
    (hv : cfg.vol_low_threshold ≤ cfg.vol_high_threshold)
    (hs : cfg.slope_low_threshold ≤ cfg.slope_high_threshold) :
    (data.length < cfg.min_rounds_per_regime → detect_regime cfg data = Regime.normal) ∧
    (cfg.min_rounds_per_regime ≤ data.length →
      ((detect_regime cfg data = Regime.low_vol ↔
          avg_vol data < cfg.vol_low_threshold ∧
            avg_slope data < cfg.slope_low_threshold) ∧
        ((cfg.vol_high_threshold < avg_vol data ∨
            cfg.slope_high_threshold < avg_slope data) →
          detect_regime cfg data = Regime.high_vol) ∧
        (¬(avg_vol data < cfg.vol_low_threshold ∧
            avg_slope data < cfg.slope_low_threshold) →
          ¬(cfg.vol_high_threshold < avg_vol data ∨
            cfg.slope_high_threshold < avg_slope data) →
          detect_regime cfg data = Regime.normal))) := by
  unfold detect_regime
  by_cases hlen : data.length < cfg.min_rounds_per_regime
  · rw [if_pos hlen]
    exact ⟨fun _ => rfl, fun h => absurd hlen (not_lt.mpr h)⟩
  · rw [if_neg hlen]
    refine ⟨fun h => absurd h hlen, fun _ => ?_⟩
    by_cases hlow : avg_vol data < cfg.vol_low_threshold ∧
        avg_slope data < cfg.slope_low_threshold
    · rw [if_pos hlow]
      refine ⟨⟨fun _ => hlow, fun _ => rfl⟩, ?_, fun hnl _ => (hnl hlow).elim⟩
      rintro (h | h)
      · exact absurd (lt_trans (lt_of_lt_of_le hlow.1 hv) h) (lt_irrefl _)
      · exact absurd (lt_trans (lt_of_lt_of_le hlow.2 hs) h) (lt_irrefl _)
    · rw [if_neg hlow]
      by_cases hhigh : cfg.vol_high_threshold < avg_vol data ∨
          cfg.slope_high_threshold < avg_slope data
      · rw [if_pos hhigh]
        exact ⟨⟨fun h => absurd h (by simp), fun h => absurd h hlow⟩,
          fun _ => rfl, fun _ hnh => (hnh hhigh).elim⟩
      · rw [if_neg hhigh]
        exact ⟨⟨fun h => absurd h (by simp), fun h => absurd h hlow⟩,
          fun h => absurd h hhigh, fun _ _ => rfl⟩

/-- C6 witness: with the default thresholds and a minimum of one row, a
single perfectly calm row is classified LOW_VOL through the amended iff. -/
theorem detect_regime_spec_witness :
    detect_regime { defaultRegimeConfig with min_rounds_per_regime := 1 }
      [{ volatility := 0, slope_magnitude := 0 }] = Regime.low_vol :=
  ((detect_regime_spec { defaultRegimeConfig with min_rounds_per_regime := 1 }
      [{ volatility := 0, slope_magnitude := 0 }]
      (by norm_num [defaultRegimeConfig])
      (by norm_num [defaultRegimeConfig])
      (by norm_num [defaultRegimeConfig])).2
    (by norm_num [defaultRegimeConfig])).1.mpr
    (by norm_num [avg_vol, avg_slope, meanQ, defaultRegimeConfig])

/-- C7: the Pareto frontier returned by `find_pareto_optimal` contains no two
entries one of which dominates the other, and it is sorted by Sharpe ratio in
descending order. -/
theorem find_pareto_optimal_spec (results : List SweepResult) :
    (∀ A ∈ find_pareto_optimal results, ∀ B ∈ find_pareto_optimal results,
      ¬ dominates B A) ∧
    List.Sorted sharpeGE (find_pareto_optimal results) := by
  unfold find_pareto_optimal
  by_cases he : results.isEmpty
  · rw [if_pos he]
    exact ⟨by simp, List.sorted_nil⟩
  · rw [if_neg he]
    refine ⟨?_, List.sorted_insertionSort sharpeGE _⟩
    intro A hA B hB hdom
    rw [List.mem_insertionSort, List.mem_filter] at hA hB
    have hAf := hA.2
    simp only [Bool.not_eq_true', List.any_eq_false, decide_eq_true_eq] at hAf
    exact hAf B hB.1 hdom

/-- C10: on a nonempty result list the Pareto frontier is nonempty, because
the dominance relation is irreflexive and transitive, so some result is
dominated by no other. -/
theorem find_pareto_optimal_nonempty (results : List SweepResult)
    (h : results ≠ []) : find_pareto_optimal results ≠ [] := by
  unfold find_pareto_optimal
  rw [if_neg (by simpa using h)]
  obtain ⟨r, hr, hmax⟩ := exists_not_dominated results h
  have hmem : r ∈ results.filter fun r => ! results.any fun o => decide (dominates o r) := by
    rw [List.mem_filter]
    refine ⟨hr, ?_⟩
    simp only [Bool.not_eq_true', List.any_eq_false, decide_eq_true_eq]
    exact fun o ho => hmax o ho
  intro hnil
  have hlen := congrArg List.length hnil
  simp only [List.length_insertionSort, List.length_nil] at hlen
  exact List.ne_nil_of_mem hmem (List.length_eq_zero.mp hlen)

/-- C10 witness: a one-element sweep result list keeps its element on the
frontier. -/
theorem find_pareto_optimal_nonempty_witness :
    find_pareto_optimal
      [{ cash_threshold := 1/4, sidebet_threshold := 7/20, total_return := 1/10,
         sharpe := 1/10, max_drawdown := 1/5, prob_ruin := 2/5, trades_count := 10,
         final_bankroll := 1100 }] ≠ [] :=
  find_pareto_optimal_nonempty _ (List.cons_ne_nil _ _)

/-- C8: the confidence returned by `best_action` equals
`min(0.95, max(0.05, 0.5 + (best - second_best) * 10))` computed over the
ranked candidate list, and therefore always lies in `[0.05, 0.95]`. -/
theorem best_action_confidence_spec (cfg : EVConfig) (p5 p10 x bankroll : ℚ) :
    (best_action cfg p5 p10 x bankroll).confidence =
      min (95/100) (max (5/100)
        (1/2 + (((rankedActions cfg p5 p10 x bankroll).getD 0 (EVAction.CASH, 0)).2 -
          (if 1 < (rankedActions cfg p5 p10 x bankroll).length then
            ((rankedActions cfg p5 p10 x bankroll).getD 1 (EVAction.CASH, 0)).2
           else 0)) * 10)) ∧
    (5/100 : ℚ) ≤ (best_action cfg p5 p10 x bankroll).confidence ∧
    (best_action cfg p5 p10 x bankroll).confidence ≤ 95/100 := by
  refine ⟨rfl, ?_, ?_⟩
  · exact le_min (by norm_num) (le_max_left _ _)
  · exact min_le_left _ _

/-- The ranked candidate list is never empty: HOLD and CASH are always
candidates. -/
theorem rankedActions_ne_nil (cfg : EVConfig) (p5 p10 x bankroll : ℚ) :
    rankedActions cfg p5 p10 x bankroll ≠ [] := by
  unfold rankedActions
  intro hnil
  have hlen := congrArg List.length hnil
  rw [List.length_insertionSort] at hlen
  simp [candidateActions] at hlen

/-- If the top-ranked action is ARM_SIDEBET then the sidebet EV passed the
`ev_threshold` gate when the candidate list was built. -/
theorem sidebet_head_gt (cfg : EVConfig) (p5 p10 x bankroll : ℚ)
    (hact : ((rankedActions cfg p5 p10 x bankroll).getD 0 (EVAction.CASH, 0)).1 =
      EVAction.ARM_SIDEBET) :
    cfg.ev_threshold <
      ev_sidebet cfg (clamp_probability cfg p10) (bankroll * cfg.default_stake_pct) := by
  by_contra hs
  have hmem2 : (rankedActions cfg p5 p10 x bankroll).getD 0 (EVAction.CASH, 0) ∈
      candidateActions cfg p5 p10 x bankroll := by
    have h := getD_zero_mem _ (EVAction.CASH, (0:ℚ))
      (rankedActions_ne_nil cfg p5 p10 x bankroll)
    exact (List.mem_insertionSort evGE).mp h
  simp only [candidateActions] at hmem2
  rw [if_neg hs] at hmem2
  simp only [List.append_nil, List.mem_cons, List.not_mem_nil, or_false] at hmem2
  rcases hmem2 with h | h <;> rw [h] at hact <;> simp at hact

/-- C3: `best_action` returns ARM_SIDEBET only when the computed sidebet EV
strictly exceeds `ev_threshold`; with `bankroll = 0` the stake is 0, the
sidebet EV is exactly 0, and the chosen action is never ARM_SIDEBET. -/
theorem best_action_sidebet_gating (cfg : EVConfig) (p5 p10 x bankroll : ℚ) :
    ((best_action cfg p5 p10 x bankroll).action = EVAction.ARM_SIDEBET →
      cfg.ev_threshold <
        ev_sidebet cfg (clamp_probability cfg p10) (bankroll * cfg.default_stake_pct)) ∧
    ev_sidebet cfg (clamp_probability cfg p10) ((0:ℚ) * cfg.default_stake_pct) = 0 ∧
    (best_action cfg p5 p10 x 0).action ≠ EVAction.ARM_SIDEBET := by
  have hzero : ev_sidebet cfg (clamp_probability cfg p10) ((0:ℚ) * cfg.default_stake_pct) = 0 := by
    simp [ev_sidebet]
  refine ⟨fun hact => sidebet_head_gt cfg p5 p10 x bankroll hact, hzero, ?_⟩
  intro hact
  have hact' : ((rankedActions cfg p5 p10 x 0).getD 0 (EVAction.CASH, 0)).1 =
      EVAction.ARM_SIDEBET := hact
  by_cases hs0 : cfg.ev_threshold <
      ev_sidebet cfg (clamp_probability cfg p10) ((0:ℚ) * cfg.default_stake_pct)
  · have hcand : candidateActions cfg p5 p10 x 0 =
        [(EVAction.HOLD, ev_cash_hold cfg (clamp_probability cfg p5) x - ev_cash_now cfg x),
          (EVAction.CASH, 0), (EVAction.ARM_SIDEBET, 0)] := by
      simp only [candidateActions]
      rw [if_pos hs0, hzero]
      simp
    rw [rankedActions, hcand] at hact'
    simp only [List.insertionSort, List.orderedInsert] at hact'
    by_cases hh : evGE (EVAction.HOLD,
        ev_cash_hold cfg (clamp_probability cfg p5) x - ev_cash_now cfg x) (EVAction.CASH, 0)
    · rw [if_pos hh] at hact'
      simp at hact'
    · rw [if_neg hh] at hact'
      simp at hact'
  · exact hs0 (sidebet_head_gt cfg p5 p10 x 0 hact')

/-- C3 witness: at the default configuration with `p5 = p10 = 0.9`, `x = 2`
and `bankroll = 1000`, `best_action` picks ARM_SIDEBET, and by the gating
theorem the sidebet EV then exceeds `ev_threshold`. -/
theorem best_action_sidebet_gating_witness :
    (best_action defaultEVConfig (9/10) (9/10) 2 1000).action = EVAction.ARM_SIDEBET ∧
    defaultEVConfig.ev_threshold <
      ev_sidebet defaultEVConfig (clamp_probability defaultEVConfig (9/10))
        (1000 * defaultEVConfig.default_stake_pct) := by
  have hclamp : clamp_probability defaultEVConfig (9/10) = 9/10 := by
    show min (max ((9:ℚ)/10) (1/1000000)) (999999/1000000) = 9/10
    norm_num [min_def, max_def]
  have hhold : ev_cash_hold defaultEVConfig (clamp_probability defaultEVConfig (9/10)) 2 -
      ev_cash_now defaultEVConfig 2 = -(106/125 : ℚ) := by
    simp only [ev_cash_hold, ev_cash_now, hclamp]
    norm_num [defaultEVConfig]
  have hsb : ev_sidebet defaultEVConfig (clamp_probability defaultEVConfig (9/10))
      (1000 * defaultEVConfig.default_stake_pct) = 857/25 := by
    simp only [ev_sidebet, hclamp]
    norm_num [defaultEVConfig]
  have hcands : candidateActions defaultEVConfig (9/10) (9/10) 2 1000 =
      [(EVAction.HOLD, -(106/125 : ℚ)), (EVAction.CASH, 0),
        (EVAction.ARM_SIDEBET, 857/25)] := by
    simp only [candidateActions, hhold, hsb]
    rw [if_pos (show defaultEVConfig.ev_threshold < 857/25 by norm_num [defaultEVConfig])]
    simp
  have hact : (best_action defaultEVConfig (9/10) (9/10) 2 1000).action =
      EVAction.ARM_SIDEBET := by
    show ((rankedActions defaultEVConfig (9/10) (9/10) 2 1000).getD 0
      (EVAction.CASH, 0)).1 = EVAction.ARM_SIDEBET
    rw [rankedActions, hcands]
    simp only [List.insertionSort, List.orderedInsert]
    rw [if_neg (show ¬ evGE (EVAction.CASH, (0:ℚ)) (EVAction.ARM_SIDEBET, 857/25) by
      norm_num [evGE])]
    simp only [List.orderedInsert]
    rw [if_neg (show ¬ evGE (EVAction.HOLD, -(106/125 : ℚ))
      (EVAction.ARM_SIDEBET, 857/25) by norm_num [evGE])]
    simp
  exact ⟨hact, (best_action_sidebet_gating defaultEVConfig (9/10) (9/10) 2 1000).1 hact⟩

/-- C7 witness: on a concrete singleton result list the frontier keeps the
element, and the no-dominated-pair property instantiates to it not dominating
itself. -/
theorem find_pareto_optimal_spec_witness :
    (⟨3/10, 2/5, 1/5, 3/10, 1/10, 1/5, 7, 1200⟩ : SweepResult) ∈
      find_pareto_optimal [⟨3/10, 2/5, 1/5, 3/10, 1/10, 1/5, 7, 1200⟩] ∧
    ¬ dominates (⟨3/10, 2/5, 1/5, 3/10, 1/10, 1/5, 7, 1200⟩ : SweepResult)
      ⟨3/10, 2/5, 1/5, 3/10, 1/10, 1/5, 7, 1200⟩ := by
  have hnd : ¬ dominates (⟨3/10, 2/5, 1/5, 3/10, 1/10, 1/5, 7, 1200⟩ : SweepResult)
      ⟨3/10, 2/5, 1/5, 3/10, 1/10, 1/5, 7, 1200⟩ :=
    dominates_irrefl _
  have hmem : (⟨3/10, 2/5, 1/5, 3/10, 1/10, 1/5, 7, 1200⟩ : SweepResult) ∈
      find_pareto_optimal [⟨3/10, 2/5, 1/5, 3/10, 1/10, 1/5, 7, 1200⟩] := by
    unfold find_pareto_optimal
    rw [if_neg (by simp)]
    have hdec : decide (dominates (⟨3/10, 2/5, 1/5, 3/10, 1/10, 1/5, 7, 1200⟩ : SweepResult)
        ⟨3/10, 2/5, 1/5, 3/10, 1/10, 1/5, 7, 1200⟩) = false := decide_eq_false hnd
    simp only [List.filter_cons, List.filter_nil, List.any_cons, List.any_nil, hdec,
      Bool.or_false, Bool.not_false, if_true, List.insertionSort, List.orderedInsert]
    exact List.mem_singleton_self _
  exact ⟨hmem,
    (find_pareto_optimal_spec [⟨3/10, 2/5, 1/5, 3/10, 1/10, 1/5, 7, 1200⟩]).1
      _ hmem _ hmem⟩
